import Mathlib

/-!
# korjavin/tedsuggester: a shallow embedding and its verified properties

The development follows the four Go source files of the repository:

* `scheduler/scheduler.go`: the task registry, one tick of the loop, `Stop`;
* `ted/client.go`: `FilterTalks`;
* `deepseek/client.go`: the cleaning of a generation response;
* `main.go`: the three weekly handlers, run against explicit collaborators.

Stateful code is written as explicit state passing.  The collaborators
(search, text generation, messaging, the clock, the random source and the
failures of the database driver) are fields of an environment record, so every
handler is an executable function of the environment and of the store.
-/

deriving instance DecidableEq for Except

namespace scheduler

/-! ## Package `time` as far as the scheduler uses it -/

/-- Go `time.Weekday`: an `int` with `Sunday = 0`, ..., `Saturday = 6`. -/
abbrev Weekday := Nat

/-- Go `time.Sunday`. -/
def Sunday : Weekday := 0
/-- Go `time.Monday`. -/
def Monday : Weekday := 1
/-- Go `time.Wednesday`. -/
def Wednesday : Weekday := 3

/-- Go `time.Time`: the three fields of the struct.  `loc` is the location
pointer, `none` being the nil pointer that stands for UTC.  The Go operator
`==` on two `time.Time` values compares exactly these three fields. -/
structure Time where
  wall : Nat
  ext : Int
  loc : Option Nat
deriving DecidableEq, Repr

/-- The value of `time.Date(0, 0, 0, hour, minute, 0, 0, time.UTC)`.
Month 0 of year 0 normalises to December of year -1 and day 0 to the
30th of November of year -1, which lies 398 days before the first of
January of year 1, the origin of `ext`.  The result carries no monotonic
reading (`wall = 0`) and the nil location.  The normalisation of `hour` and
`minute` into the day keeps the number of seconds, so `ext` is linear in them
(for arguments whose seconds fit a machine integer, as all uses here do). -/
def Date000 (hour minute : Int) : Time :=
  { wall := 0, ext := -(398 * 86400) + hour * 3600 + minute * 60, loc := none }

/-- The reading of `time.Now()`: `abs` is the number of seconds of the local
wall clock since the absolute epoch of package `time` (a Monday), from which
`Weekday`, `Hour` and `Minute` are computed. -/
structure Now where
  abs : Nat
deriving DecidableEq, Repr

/-- Go `Time.Weekday`: `(abs + Monday*secondsPerDay) % secondsPerWeek / secondsPerDay`. -/
def Now.Weekday (now : Now) : Weekday := (now.abs + 1 * 86400) % 604800 / 86400

/-- Go `Time.Hour`: `abs % secondsPerDay / secondsPerHour`. -/
def Now.Hour (now : Now) : Int := ((now.abs % 86400 / 3600 : Nat) : Int)

/-- Go `Time.Minute`: `abs % secondsPerHour / secondsPerMinute`. -/
def Now.Minute (now : Now) : Int := ((now.abs % 3600 / 60 : Nat) : Int)

/-! ## scheduler.go -/

/-- Go `Task`.  `Handler` identifies the function value stored in the field. -/
structure Task where
  Name : String
  Schedule : Weekday
  Time : Time
  Handler : Nat
deriving DecidableEq, Repr

/-- The state of a Go channel that is only ever closed. -/
inductive Chan where
  | nil
  | opened
  | closed
deriving DecidableEq, Repr

/-- Go `Scheduler`; `interval` is in nanoseconds. -/
structure Scheduler where
  interval : Nat
  tasks : List Task
  stopChan : Chan
deriving DecidableEq, Repr

/-- Go `New`: interval of one minute, no task, a fresh open channel. -/
def New : Scheduler :=
  { interval := 60 * 1000000000, tasks := [], stopChan := Chan.opened }

/-- Go `AddTask`: `s.tasks = append(s.tasks, task)`.  It has no result. -/
def AddTask (s : Scheduler) (task : Task) : Scheduler :=
  { s with tasks := s.tasks ++ [task] }

/-- A run-time panic of the Go runtime. -/
inductive Panic where
  | closeOfClosedChannel
  | closeOfNilChannel
deriving DecidableEq, Repr

/-- Go `Stop`: `close(s.stopChan)`.  Closing an open channel marks it closed;
closing a closed or a nil channel panics. -/
def Stop (s : Scheduler) : Except Panic Scheduler :=
  match s.stopChan with
  | Chan.opened => Except.ok { s with stopChan := Chan.closed }
  | Chan.closed => Except.error Panic.closeOfClosedChannel
  | Chan.nil => Except.error Panic.closeOfNilChannel

/-- Go `WeeklySchedule`: the weekday argument is not used. -/
def WeeklySchedule (_weekday : Weekday) (hour minute : Int) : Time :=
  Date000 hour minute

/-- The `for _, task := range s.tasks` loop of `runScheduledTasks`:
`spawned` collects, in order, the tasks handed to a new goroutine. -/
def runLoop (currentWeekday : Weekday) (currentTime : Time) :
    List Task → List Task → List Task
  | [], spawned => spawned
  | task :: rest, spawned =>
    if task.Schedule = currentWeekday ∧ task.Time = currentTime then
      runLoop currentWeekday currentTime rest (spawned ++ [task])
    else
      runLoop currentWeekday currentTime rest spawned

/-- Go `runScheduledTasks` for the clock reading `now`: the goroutines started
by one tick, each identified by the task copy it received. -/
def runScheduledTasks (s : Scheduler) (now : Now) : List Task :=
  let currentWeekday := now.Weekday
  let currentTime := Date000 now.Hour now.Minute
  runLoop currentWeekday currentTime s.tasks []

/-- The task used to show what `AddTask` does with a name it already holds. -/
def closePollTask : Task :=
  { Name := "close_poll", Schedule := Wednesday,
    Time := WeeklySchedule Wednesday 18 0, Handler := 2 }

end scheduler

namespace ted

/-! ## ted/client.go -/

/-- Go `ted.Talk`. -/
structure Talk where
  ID : String
  Title : String
  Description : String
  Duration : Int
deriving DecidableEq, Repr

/-- The loop of `FilterTalks`: `filtered` is the slice built so far. -/
def filterLoop (minDuration maxDuration : Int) : List Talk → List Talk → List Talk
  | [], filtered => filtered
  | talk :: rest, filtered =>
    if talk.Duration ≥ minDuration ∧ talk.Duration ≤ maxDuration then
      filterLoop minDuration maxDuration rest (filtered ++ [talk])
    else
      filterLoop minDuration maxDuration rest filtered

/-- Go `FilterTalks`. -/
def FilterTalks (talks : List Talk) (minDuration maxDuration : Int) : List Talk :=
  filterLoop minDuration maxDuration talks []

end ted

namespace deepseek

/-! ## deepseek/client.go

A Go string that holds valid UTF-8 is a sequence of Unicode code points, here
a `String`.  The response text is the `content` field decoded by
`encoding/json`, which always yields valid UTF-8. -/

/-- Go `unicode.IsSpace`: the code points with the `White_Space` property. -/
def isSpace (c : Char) : Bool :=
  let n := c.toNat
  (9 ≤ n && n ≤ 13) || n == 32 || n == 0x85 || n == 0xA0 || n == 0x1680 ||
    (0x2000 ≤ n && n ≤ 0x200a) || n == 0x2028 || n == 0x2029 || n == 0x202f ||
    n == 0x205f || n == 0x3000

/-- Go `strings.TrimSpace` on code points: the leading white space is dropped,
then the trailing white space. -/
def trimChars (s : List Char) : List Char :=
  (s.dropWhile isSpace).rdropWhile isSpace

/-- Go `strings.TrimSpace`. -/
def TrimSpace (s : String) : String := String.mk (trimChars s.data)

/-- Go `strings.Split(s, "\n")` on code points: `cur` is the piece being read.
There is one piece more than there are line feeds. -/
def splitChars : List Char → List Char → List (List Char)
  | [], cur => [cur]
  | c :: cs, cur =>
    if c = '\n' then cur :: splitChars cs [] else splitChars cs (cur ++ [c])

/-- Go `strings.Split(s, "\n")`. -/
def Split (s : String) : List String := (splitChars s.data []).map String.mk

/-- The clean-up loop of `GenerateDiscussionQuestions`. -/
def cleanLoop : List String → List String → List String
  | [], cleanedQuestions => cleanedQuestions
  | q :: rest, cleanedQuestions =>
    let q := TrimSpace q
    if q ≠ "" then cleanLoop rest (cleanedQuestions ++ [q])
    else cleanLoop rest cleanedQuestions

/-- The prompt `GenerateDescription` builds with `fmt.Sprintf`. -/
def descriptionPrompt (title : String) : String :=
  "Create a short 2-3 sentence description for a TED talk titled: " ++ title

/-- Go `GenerateDescription`; `makeRequest` is the call to the provider. -/
def GenerateDescription (makeRequest : String → Except String String)
    (title : String) : Except String String :=
  makeRequest (descriptionPrompt title)

/-- The prompt `GenerateDiscussionQuestions` builds with `fmt.Sprintf`. -/
def questionsPrompt (title description : String) : String :=
  "Generate 3-4 discussion questions for a TED talk with the following details:\nTitle: "
    ++ title ++ "\nDescription: " ++ description
    ++ "\n\nThe questions should be thought-provoking and encourage meaningful discussion."

/-- Go `GenerateDiscussionQuestions`; `makeRequest` is the call to the provider. -/
def GenerateDiscussionQuestions (makeRequest : String → Except String String)
    (title description : String) : Except String (List String) :=
  match makeRequest (questionsPrompt title description) with
  | Except.error err => Except.error err
  | Except.ok response => Except.ok (cleanLoop (Split response) [])

end deepseek

namespace main

/-! ## main.go -/

/-- Go `min` of main.go. -/
def min (a b : Int) : Int := if a < b then a else b

/-- Handler identifiers for the `Handler` field of a task. -/
def handleMondayTaskId : Nat := 1
/-- Identifier of `app.handleWednesdayTask`. -/
def handleWednesdayTaskId : Nat := 2
/-- Identifier of `app.handleSundayTask`. -/
def handleSundayTaskId : Nat := 3

/-- Go `setupScheduler`. -/
def setupScheduler : scheduler.Scheduler :=
  let sched := scheduler.New
  let sched := scheduler.AddTask sched
    { Name := "search_and_poll", Schedule := scheduler.Monday,
      Time := scheduler.WeeklySchedule scheduler.Monday 8 0, Handler := handleMondayTaskId }
  let sched := scheduler.AddTask sched
    { Name := "close_poll", Schedule := scheduler.Wednesday,
      Time := scheduler.WeeklySchedule scheduler.Wednesday 18 0,
      Handler := handleWednesdayTaskId }
  let sched := scheduler.AddTask sched
    { Name := "prepare_discussion", Schedule := scheduler.Sunday,
      Time := scheduler.WeeklySchedule scheduler.Sunday 12 0, Handler := handleSundayTaskId }
  sched

/-- Go `telebot.PollOption`, the two fields the program uses. -/
structure PollOption where
  Text : String
  VoterCount : Int
deriving DecidableEq, Repr

/-- Go `telebot.Poll` as the propose phase builds it (`Type` is always
`telebot.PollRegular`). -/
structure Poll where
  Question : String
  Options : List PollOption
deriving DecidableEq, Repr

/-- A row of table `talks`, as `initializeDatabase` declares it.  `id` is the
primary key; `suggested_at` is the stored clock reading. -/
structure Row where
  id : String
  title : String
  description : String
  suggested_at : Nat
  poll_message_id : String
  selected : Bool
  discussion_questions : Option String
deriving DecidableEq, Repr

/-- A call to a collaborator outside the process. -/
inductive Event where
  | searchTalks (topic : String)
  | makeRequest (prompt : String)
  | sendPoll (poll : Poll)
  | sendMessage (text : String)
deriving DecidableEq, Repr

/-- The errors the handlers return, one constructor for each `fmt.Errorf`. -/
inductive Err where
  | searchTalks (cause : String)
  | notEnoughTalks (topic : String)
  | generateDescription (cause : String)
  | sendPoll (cause : String)
  | saveTalk (cause : String)
  | getSelectedTalk (cause : String)
  | generateQuestions (cause : String)
  | saveQuestions (cause : String)
  | sendDiscussion (cause : String)
  | noWinningOption
deriving DecidableEq, Repr

/-- The collaborators of one handler run.  `topic` is the value of
`app.config.TopicList[rand.Intn(len(app.config.TopicList))]` (`LoadConfig`
rejects an empty `TOPIC_LIST`, so the list has an element).  `makeRequest n`
answers the request made after `n` earlier ones.  `timeNow i` is the reading of
`time.Now()` at the insert of candidate `i`.  `execFails i` tells whether the
driver fails write statement `i` of the run for a reason of its own (lost
connection, cancelled context, full disk), `queryFails` whether it fails the
`SELECT` of the prepare phase. -/
structure Env where
  topic : String
  SearchTalks : String → Except String (List ted.Talk)
  makeRequest : Nat → String → Except String String
  SendPoll : Poll → Except String String
  SendText : String → Except String Unit
  timeNow : Nat → Nat
  execFails : Nat → Option String
  queryFails : Option String

/-- The store and the record of the calls made to the collaborators. -/
structure World where
  db : List Row
  log : List Event
deriving DecidableEq, Repr

/-- The poll option of a talk: `fmt.Sprintf("%s\n%s", talk.Title, desc)`. -/
def pollOptionOf (talk : ted.Talk) (desc : String) : PollOption :=
  { Text := talk.Title ++ "\n" ++ desc, VoterCount := 0 }

/-- The poll of the propose phase for the given options. -/
def pollOf (topic : String) (pollOptions : List PollOption) : Poll :=
  { Question := "Which TED talk about " ++ topic ++ " should we discuss?",
    Options := pollOptions }

/-- The call to the provider that `GenerateDescription` makes for a talk. -/
def requestEvent (talk : ted.Talk) : Event :=
  Event.makeRequest (deepseek.descriptionPrompt talk.Title)

/-- The description loop of `handleMondayTask`: `n` requests were made,
`pollOptions` is the slice built so far. -/
def descLoop (env : Env) : List ted.Talk → Nat → List PollOption → List Event →
    Except Err (List PollOption) × List Event
  | [], _, pollOptions, log => (Except.ok pollOptions, log)
  | talk :: rest, n, pollOptions, log =>
    let log := log ++ [requestEvent talk]
    match deepseek.GenerateDescription (env.makeRequest n) talk.Title with
    | Except.error err => (Except.error (Err.generateDescription err), log)
    | Except.ok desc =>
      descLoop env rest (n + 1)
        (pollOptions ++ [pollOptionOf talk desc]) log

/-- Whether `descs` are the descriptions the provider returns for `talks`,
one request per talk, the first being request `n`. -/
def described (env : Env) : Nat → List ted.Talk → List String → Bool
  | _, [], [] => true
  | n, talk :: rest, desc :: descs =>
    decide (deepseek.GenerateDescription (env.makeRequest n) talk.Title = Except.ok desc)
      && described env (n + 1) rest descs
  | _, _, _ => false

/-- The polls in a record of calls, in order. -/
def sentPolls : List Event → List Poll
  | [] => []
  | Event.sendPoll poll :: rest => poll :: sentPolls rest
  | _ :: rest => sentPolls rest

/-- One `INSERT INTO talks` statement: the driver may fail it, and the primary
key rejects an `id` the table already holds. -/
def insertTalk (env : Env) (i : Nat) (db : List Row) (row : Row) : Except String (List Row) :=
  match env.execFails i with
  | some err => Except.error err
  | none =>
    if db.any (fun r => r.id == row.id) then
      Except.error "UNIQUE constraint failed: talks.id"
    else Except.ok (db ++ [row])

/-- The row that `handleMondayTask` inserts for candidate `i`: the description
is `pollOptions[i].Text` (the two slices have the same length whenever the
insert loop is reached). -/
def talkRow (env : Env) (pollOptions : List PollOption) (pollID : String) (i : Nat)
    (talk : ted.Talk) : Row :=
  { id := talk.ID, title := talk.Title,
    description := (pollOptions.getD i { Text := "", VoterCount := 0 }).Text,
    suggested_at := env.timeNow i, poll_message_id := pollID,
    selected := false, discussion_questions := none }

/-- The insert loop of `handleMondayTask`, at index `i`.  Each statement is
committed on its own. -/
def insertLoop (env : Env) (pollOptions : List PollOption) (pollID : String) :
    List ted.Talk → Nat → List Row → Option Err × List Row
  | [], _, db => (none, db)
  | talk :: rest, i, db =>
    match insertTalk env i db (talkRow env pollOptions pollID i talk) with
    | Except.error err => (some (Err.saveTalk err), db)
    | Except.ok db => insertLoop env pollOptions pollID rest (i + 1) db

/-- The rows of a list of candidates, the first one having index `i`. -/
def candidateRows (env : Env) (pollOptions : List PollOption) (pollID : String) :
    List ted.Talk → Nat → List Row
  | [], _ => []
  | talk :: rest, i =>
    talkRow env pollOptions pollID i talk :: candidateRows env pollOptions pollID rest (i + 1)

/-- The candidates of the propose phase: `filteredTalks[:min(6, len(filteredTalks))]`. -/
def candidatesOf (filteredTalks : List ted.Talk) : List ted.Talk :=
  filteredTalks.take (min 6 filteredTalks.length).toNat

/-- Go `handleMondayTask`: the returned error (`none` is the nil error) and
the world after the run. -/
def handleMondayTask (env : Env) (w : World) : Option Err × World :=
  let topic := env.topic
  let log := w.log ++ [Event.searchTalks topic]
  match env.SearchTalks topic with
  | Except.error err => (some (Err.searchTalks err), { w with log := log })
  | Except.ok talks =>
    let filteredTalks := ted.FilterTalks talks 600 1200
    if filteredTalks.length < 5 then
      (some (Err.notEnoughTalks topic), { w with log := log })
    else
      let candidates := candidatesOf filteredTalks
      match descLoop env candidates 0 [] log with
      | (Except.error err, log) => (some err, { w with log := log })
      | (Except.ok pollOptions, log) =>
        let poll : Poll := pollOf topic pollOptions
        let log := log ++ [Event.sendPoll poll]
        match env.SendPoll poll with
        | Except.error err => (some (Err.sendPoll err), { w with log := log })
        | Except.ok pollID =>
          match insertLoop env pollOptions pollID candidates 0 w.db with
          | (err, db) => (err, { db := db, log := log })

/-- The winner loop of `handleWednesdayTask`, with the range variable of
Go 1.22 and later: every iteration has a variable `option` of its own.
`cells` are the loop variables allocated so far, `winningOption` is nil or the
address of one of them (its index in `cells`), as `winningOption = &option`
sets it. -/
def winnerLoop :
    List PollOption → List PollOption → Option Nat → Int → List PollOption × Option Nat
  | [], cells, winningOption, _ => (cells, winningOption)
  | option :: rest, cells, winningOption, maxVotes =>
    let addr := cells.length
    let cells := cells ++ [option]
    if option.VoterCount > maxVotes then
      winnerLoop rest cells (some addr) option.VoterCount
    else
      winnerLoop rest cells winningOption maxVotes

/-- The option `winningOption` points to after the loop, or the error of the
nil case.  Its `Text` is what the handler matches against the descriptions
and puts into the announcement. -/
def winningOption (options : List PollOption) : Except Err PollOption :=
  match winnerLoop options [] none (-1) with
  | (_, none) => Except.error Err.noWinningOption
  | (cells, some addr) =>
    match cells.get? addr with
    | some option => Except.ok option
    | none => Except.error Err.noWinningOption

/-- The argument `"%"+winningOption.Text+"%"` of the `LIKE` that
`handleWednesdayTask` uses to find the talk of the winning option. -/
def likeArgument (winning : PollOption) : String := "%" ++ winning.Text ++ "%"

/-- The announcement of `handleWednesdayTask`. -/
def announcement (talkTitle : String) (winning : PollOption) : String :=
  "We're going to discuss \"" ++ talkTitle ++ "\" on Sunday at 18:00 Berlin time! ðŸŽ‰\n\n"
    ++ winning.Text

/-- The query of `handleSundayTask` on the rows that passed `WHERE selected = 1`:
the row that `ORDER BY suggested_at DESC LIMIT 1` keeps.  Among rows with the
same `suggested_at` SQL fixes no order; the earliest row is taken here. -/
def latestRow : List Row → Option Row
  | [] => none
  | r :: rest =>
    match latestRow rest with
    | none => some r
    | some r2 => if r2.suggested_at > r.suggested_at then some r2 else some r

/-- The `UPDATE talks SET discussion_questions = ? WHERE id = ?` statement. -/
def updateQuestions (db : List Row) (text talkID : String) : List Row :=
  db.map (fun r => if r.id = talkID then { r with discussion_questions := some text } else r)

/-- The `SELECT id, title, description FROM talks WHERE selected = 1 ORDER BY
suggested_at DESC LIMIT 1` of `handleSundayTask`, with the `Scan`: a driver
failure, `sql.ErrNoRows`, or the row. -/
def querySelectedTalk (env : Env) (db : List Row) : Except String Row :=
  match env.queryFails with
  | some err => Except.error err
  | none =>
    match latestRow (db.filter (fun r => r.selected)) with
    | none => Except.error "sql: no rows in result set"
    | some row => Except.ok row

/-- Go `handleSundayTask`. -/
def handleSundayTask (env : Env) (w : World) : Option Err × World :=
  match querySelectedTalk env w.db with
  | Except.error err => (some (Err.getSelectedTalk err), w)
  | Except.ok row =>
    let log := w.log ++ [Event.makeRequest (deepseek.questionsPrompt row.title row.description)]
    match deepseek.GenerateDiscussionQuestions (env.makeRequest 0) row.title row.description with
    | Except.error err => (some (Err.generateQuestions err), { w with log := log })
    | Except.ok questions =>
      match env.execFails 0 with
      | some err => (some (Err.saveQuestions err), { w with log := log })
      | none =>
        let db := updateQuestions w.db (String.intercalate "\n" questions) row.id
        let discussionMessage :=
          "Here are some questions to guide our discussion of \"" ++ row.title ++ "\":\n\n"
            ++ String.intercalate "\nâ€¢ " questions ++ "\n\nSee you at 18:00!"
        let log := log ++ [Event.sendMessage discussionMessage]
        match env.SendText discussionMessage with
        | Except.error err => (some (Err.sendDiscussion err), { db := db, log := log })
        | Except.ok _ => (none, { db := db, log := log })

/-- The rows of the current cycle: those whose `suggested_at` is the greatest
in the store. -/
def currentCycle (db : List Row) : List Row :=
  db.filter (fun r => db.all (fun r2 => r2.suggested_at ≤ r.suggested_at))

/-! ### Concrete collaborators and stores for the examples -/

/-- A talk of the given id and duration. -/
def talk (id : String) (duration : Int) : ted.Talk :=
  { ID := id, Title := "Talk " ++ id, Description := "", Duration := duration }

/-- A search result with seven talks inside the bounds 600 and 1200. -/
def demoTalks : List ted.Talk :=
  [talk "t1" 500, talk "t2" 650, talk "t3" 1200, talk "t4" 1300, talk "t5" 900,
    talk "t6" 700, talk "t7" 800, talk "t8" 1000, talk "t9" 1100]

/-- Collaborators that all succeed. -/
def demoEnv : Env :=
  { topic := "Climate"
    SearchTalks := fun _ => Except.ok demoTalks
    makeRequest := fun _ _ => Except.ok "Line one.\nLine two."
    SendPoll := fun _ => Except.ok "poll-2"
    SendText := fun _ => Except.ok ()
    timeNow := fun i => 100 + i
    execFails := fun _ => none
    queryFails := none }

/-- Collaborators whose search leaves three talks inside the bounds. -/
def fewEnv : Env :=
  { demoEnv with
    SearchTalks := fun _ =>
      Except.ok [talk "t1" 500, talk "t2" 650, talk "t3" 1200, talk "t4" 1300, talk "t5" 900] }

/-- A search result with exactly five talks inside the bounds 600 and 1200. -/
def fiveTalks : List ted.Talk :=
  [talk "t1" 500, talk "t2" 650, talk "t3" 1200, talk "t4" 1300, talk "t5" 900,
    talk "t6" 700, talk "t7" 800]

/-- Collaborators whose search leaves exactly five talks inside the bounds. -/
def fiveEnv : Env :=
  { demoEnv with SearchTalks := fun _ => Except.ok fiveTalks }

/-- The descriptions `demoEnv` and its variants return for `n` talks. -/
def demoDescs (n : Nat) : List String := List.replicate n "Line one.\nLine two."

/-- Collaborators whose database driver fails the fifth insert of the run. -/
def diskFullEnv : Env :=
  { demoEnv with
    execFails := fun i => if i = 4 then some "database or disk is full" else none }

/-- A row of an earlier cycle. -/
def oldRow (id : String) (selected : Bool) : Row :=
  { id := id, title := "Talk " ++ id, description := "Talk " ++ id ++ "\nOld.",
    suggested_at := 10, poll_message_id := "poll-1", selected := selected,
    discussion_questions := none }

/-- A row of the latest cycle, not selected. -/
def newRow (id : String) : Row :=
  { id := id, title := "Talk " ++ id, description := "Talk " ++ id ++ "\nNew.",
    suggested_at := 100, poll_message_id := "poll-2", selected := false,
    discussion_questions := none }

/-- The empty store. -/
def emptyWorld : World := { db := [], log := [] }

/-- A store that holds talk `t5` from an earlier cycle. -/
def overlapWorld : World := { db := [oldRow "t5" true], log := [] }

/-- A store whose earlier cycle has a selected talk and whose latest cycle has
none. -/
def staleWorld : World :=
  { db := [oldRow "a1" false, oldRow "a2" true, newRow "b1", newRow "b2"], log := [] }

/-- A store with a cycle and no selected talk at all. -/
def unselectedWorld : World := { db := [newRow "b1", newRow "b2"], log := [] }

/-- The closed poll of the tie-break example: votes 3, 5, 5, 2 on A, B, C, D. -/
def exampleOptions : List PollOption :=
  [{ Text := "A", VoterCount := 3 }, { Text := "B", VoterCount := 5 },
    { Text := "C", VoterCount := 5 }, { Text := "D", VoterCount := 2 }]

/-- A closed poll of five options, as the propose phase creates them: votes
3, 5, 5, 2, 1 on A, B, C, D, E. -/
def exampleOptions5 : List PollOption :=
  [{ Text := "A", VoterCount := 3 }, { Text := "B", VoterCount := 5 },
    { Text := "C", VoterCount := 5 }, { Text := "D", VoterCount := 2 },
    { Text := "E", VoterCount := 1 }]

/-- The winner loop on values instead of addresses: `cur` is the option
`winningOption` points to, `maxVotes` the running maximum. -/
def bestOf : Option PollOption → Int → List PollOption → Option PollOption
  | cur, _, [] => cur
  | cur, maxVotes, option :: rest =>
    if option.VoterCount > maxVotes then bestOf (some option) option.VoterCount rest
    else bestOf cur maxVotes rest

end main

/-! # Theorems -/

set_option maxRecDepth 100000

namespace scheduler

theorem runLoop_eq (wd : Weekday) (ct : Time) (tasks spawned : List Task) :
    runLoop wd ct tasks spawned
      = spawned ++ tasks.filter (fun t => decide (t.Schedule = wd ∧ t.Time = ct)) := by
  induction tasks generalizing spawned with
  | nil => simp [runLoop]
  | cons t rest ih =>
    by_cases h : t.Schedule = wd ∧ t.Time = ct
    · simp [runLoop, h, ih, List.filter_cons]
    · simp only [runLoop, h, ih, List.filter_cons, if_false, decide_False]
      simp

theorem runScheduledTasks_eq_filter (s : Scheduler) (now : Now) :
    runScheduledTasks s now
      = s.tasks.filter (fun t => decide (t.Schedule = now.Weekday ∧
          t.Time = WeeklySchedule now.Weekday now.Hour now.Minute)) := by
  simp [runScheduledTasks, runLoop_eq, WeeklySchedule]

/-- C1: one tick starts a goroutine for a task exactly when the task is
registered, its `Schedule` is the weekday of `now` and its `Time` is the value
`WeeklySchedule` builds for the hour and minute of `now`; every task is started
as many times as it is registered when it matches (so each matching entry
once) and never when it does not match; the started tasks are a sublist of
the registry, in registry order. -/
theorem runScheduledTasks_dispatch (s : Scheduler) (now : Now) :
    (∀ t : Task, t ∈ runScheduledTasks s now ↔
        (t ∈ s.tasks ∧ t.Schedule = now.Weekday ∧
          t.Time = WeeklySchedule now.Weekday now.Hour now.Minute)) ∧
    (∀ t : Task, (runScheduledTasks s now).count t =
        if t.Schedule = now.Weekday ∧
            t.Time = WeeklySchedule now.Weekday now.Hour now.Minute
        then s.tasks.count t else 0) ∧
    List.Sublist (runScheduledTasks s now) s.tasks := by
  rw [runScheduledTasks_eq_filter]
  refine ⟨?_, ?_, List.filter_sublist _⟩
  · intro t
    simp [List.mem_filter]
  · intro t
    by_cases h : t.Schedule = now.Weekday ∧
        t.Time = WeeklySchedule now.Weekday now.Hour now.Minute
    · rw [if_pos h, List.count_filter]
      simpa using h
    · rw [if_neg h]
      apply List.count_eq_zero_of_not_mem
      intro hmem
      rw [List.mem_filter] at hmem
      exact h (by simpa using hmem.2)

/-- C7, as stated, fails: registering `close_poll` a second time does not
fail, the registry grows to two entries of that name. -/
theorem AddTask_accepts_duplicate_name :
    (AddTask (AddTask New closePollTask) closePollTask).tasks
        = [closePollTask, closePollTask] ∧
      (AddTask (AddTask New closePollTask) closePollTask).tasks
        ≠ (AddTask New closePollTask).tasks ∧
      ¬ ((AddTask (AddTask New closePollTask) closePollTask).tasks.map Task.Name).Nodup := by
  decide

/-- C7, amended: `AddTask` always appends the task at the end of the registry
and changes nothing else, whatever the names already registered; the three
names that `setupScheduler` registers are pairwise distinct. -/
theorem AddTask_appends (s : Scheduler) (task : Task) :
    (AddTask s task).tasks = s.tasks ++ [task] ∧
      (AddTask s task).interval = s.interval ∧
      (AddTask s task).stopChan = s.stopChan ∧
      (main.setupScheduler.tasks.map Task.Name).Nodup := by
  refine ⟨rfl, rfl, rfl, ?_⟩
  decide

/-- C8, as stated, fails: on the scheduler `New` builds, the first `Stop`
completes and the second one panics. -/
theorem Stop_twice_panics :
    Stop New = Except.ok { New with stopChan := Chan.closed } ∧
      Stop { New with stopChan := Chan.closed }
        = Except.error Panic.closeOfClosedChannel := by
  decide

/-- C8, amended: `Stop` on a scheduler whose stop channel is open completes
and only marks the channel closed; `Stop` completes on no other scheduler; and
every `Stop` after a completed one panics with "close of closed channel", so
it changes no state and does not complete normally. -/
theorem Stop_once (s : Scheduler) :
    (s.stopChan = Chan.opened → Stop s = Except.ok { s with stopChan := Chan.closed }) ∧
    (∀ s1, Stop s = Except.ok s1 →
      s.stopChan = Chan.opened ∧ s1 = { s with stopChan := Chan.closed } ∧
      Stop s1 = Except.error Panic.closeOfClosedChannel) := by
  constructor
  · intro h
    simp [Stop, h]
  · intro s1 h
    unfold Stop at h
    cases hc : s.stopChan <;> rw [hc] at h <;> simp at h
    subst h
    exact ⟨rfl, rfl, rfl⟩

theorem Stop_once_witness :
    Stop New = Except.ok { New with stopChan := Chan.closed } ∧
      Stop { New with stopChan := Chan.closed }
        = Except.error Panic.closeOfClosedChannel :=
  ⟨(Stop_once New).1 rfl,
    ((Stop_once New).2 { New with stopChan := Chan.closed } (by decide)).2.2⟩

end scheduler

namespace ted

theorem filterLoop_eq (lo hi : Int) (talks filtered : List Talk) :
    filterLoop lo hi talks filtered
      = filtered ++ talks.filter (fun t => decide (lo ≤ t.Duration ∧ t.Duration ≤ hi)) := by
  induction talks generalizing filtered with
  | nil => simp [filterLoop]
  | cons t rest ih =>
    by_cases h : lo ≤ t.Duration ∧ t.Duration ≤ hi
    · simp [filterLoop, h, ih, List.filter_cons]
    · have h2 : ¬ (t.Duration ≥ lo ∧ t.Duration ≤ hi) := h
      simp only [filterLoop, h2, ih, List.filter_cons, if_false, h, decide_False]
      simp

/-- C3: `FilterTalks` returns the talks whose duration lies between the two
bounds, both inclusive, in input order and with input multiplicity; on
durations 500, 650, 1200, 1300, 900 with bounds 600 and 1200 it keeps the
talks of durations 650, 1200 and 900. -/
theorem FilterTalks_spec (talks : List Talk) (minDuration maxDuration : Int) :
    FilterTalks talks minDuration maxDuration
        = talks.filter (fun t => decide (minDuration ≤ t.Duration ∧ t.Duration ≤ maxDuration)) ∧
      List.Sublist (FilterTalks talks minDuration maxDuration) talks ∧
      (∀ t : Talk, (FilterTalks talks minDuration maxDuration).count t =
        if minDuration ≤ t.Duration ∧ t.Duration ≤ maxDuration then talks.count t else 0) ∧
      (∀ a b c d e : Talk,
        FilterTalks [{ a with Duration := 500 }, { b with Duration := 650 },
            { c with Duration := 1200 }, { d with Duration := 1300 },
            { e with Duration := 900 }] 600 1200
          = [{ b with Duration := 650 }, { c with Duration := 1200 },
              { e with Duration := 900 }]) := by
  have heq : FilterTalks talks minDuration maxDuration
      = talks.filter (fun t => decide (minDuration ≤ t.Duration ∧ t.Duration ≤ maxDuration)) := by
    simp [FilterTalks, filterLoop_eq]
  refine ⟨heq, ?_, ?_, ?_⟩
  · rw [heq]
    exact List.filter_sublist _
  · intro t
    rw [heq]
    by_cases h : minDuration ≤ t.Duration ∧ t.Duration ≤ maxDuration
    · rw [if_pos h, List.count_filter]
      simpa using h
    · rw [if_neg h]
      apply List.count_eq_zero_of_not_mem
      intro hmem
      rw [List.mem_filter] at hmem
      exact h (by simpa using hmem.2)
  · intro a b c d e
    simp [FilterTalks, filterLoop]

end ted

namespace deepseek

theorem splitChars_ne_nil (s cur : List Char) : splitChars s cur ≠ [] := by
  induction s generalizing cur with
  | nil => simp [splitChars]
  | cons c cs ih =>
    by_cases h : c = '\n'
    · simp [splitChars, h]
    · simp only [splitChars, h, if_false]
      exact ih _

theorem intercalate_cons_of_ne_nil (sep x : List Char) (xs : List (List Char)) (h : xs ≠ []) :
    List.intercalate sep (x :: xs) = x ++ sep ++ List.intercalate sep xs := by
  cases xs with
  | nil => exact absurd rfl h
  | cons y ys => simp [List.intercalate, List.intersperse]

theorem splitChars_intercalate (s cur : List Char) :
    List.intercalate ['\n'] (splitChars s cur) = cur ++ s := by
  induction s generalizing cur with
  | nil => simp [splitChars, List.intercalate]
  | cons c cs ih =>
    by_cases h : c = '\n'
    · simp only [splitChars, h, if_true]
      rw [intercalate_cons_of_ne_nil _ _ _ (splitChars_ne_nil cs []), ih]
      simp
    · simp only [splitChars, h, if_false]
      rw [ih]
      simp

theorem splitChars_no_newline (s cur : List Char) (hcur : '\n' ∉ cur) :
    ∀ p ∈ splitChars s cur, '\n' ∉ p := by
  induction s generalizing cur with
  | nil =>
    intro p hp
    simp [splitChars] at hp
    subst hp
    exact hcur
  | cons c cs ih =>
    intro p hp
    by_cases h : c = '\n'
    · simp only [splitChars, h, if_true, List.mem_cons] at hp
      rcases hp with hp | hp
      · subst hp
        exact hcur
      · exact ih [] (by simp) p hp
    · simp only [splitChars, h, if_false] at hp
      refine ih (cur ++ [c]) ?_ p hp
      simp only [List.mem_append, List.mem_singleton, not_or]
      exact ⟨hcur, fun e => h e.symm⟩

theorem cleanLoop_eq (qs acc : List String) :
    cleanLoop qs acc = acc ++ (qs.map TrimSpace).filter (fun q => decide (q ≠ "")) := by
  induction qs generalizing acc with
  | nil => simp [cleanLoop]
  | cons q rest ih =>
    by_cases h : TrimSpace q = ""
    · simp [cleanLoop, h, ih]
    · simp [cleanLoop, h, ih]

theorem rdropWhile_append_rtakeWhile (p : Char → Bool) (l : List Char) :
    l.rdropWhile p ++ l.rtakeWhile p = l := by
  unfold List.rdropWhile List.rtakeWhile
  rw [← List.reverse_append, List.takeWhile_append_dropWhile, List.reverse_reverse]

theorem trimChars_decompose (s : List Char) :
    s = s.takeWhile isSpace ++ trimChars s ++ (s.dropWhile isSpace).rtakeWhile isSpace := by
  unfold trimChars
  rw [List.append_assoc, rdropWhile_append_rtakeWhile, List.takeWhile_append_dropWhile]

theorem trimChars_head (s : List Char) (c : Char) (h : (trimChars s).head? = some c) :
    isSpace c = false := by
  unfold trimChars at h
  have hpre : List.IsPrefix ((s.dropWhile isSpace).rdropWhile isSpace) (s.dropWhile isSpace) :=
    List.rdropWhile_prefix isSpace _
  obtain ⟨t, ht⟩ := hpre
  cases hr : (s.dropWhile isSpace).rdropWhile isSpace with
  | nil => rw [hr] at h; simp at h
  | cons x xs =>
    rw [hr] at h ht
    simp only [List.head?_cons, Option.some.injEq] at h
    subst h
    have h2 := List.head?_dropWhile_not isSpace s
    rw [← ht] at h2
    simpa using h2

theorem trimChars_getLast (s : List Char) (c : Char) (h : (trimChars s).getLast? = some c) :
    isSpace c = false := by
  unfold trimChars at h
  by_cases hne : (s.dropWhile isSpace).rdropWhile isSpace = []
  · rw [hne] at h; simp at h
  · have h2 := List.rdropWhile_last_not isSpace (s.dropWhile isSpace) hne
    rw [List.getLast?_eq_getLast _ hne] at h
    simp only [Option.some.injEq] at h
    rw [h] at h2
    simpa using h2

theorem trimChars_subset (s : List Char) (c : Char) (h : c ∈ trimChars s) : c ∈ s := by
  rw [trimChars_decompose s]
  simp [h]

theorem Split_data (response : String) :
    (Split response).map String.data = splitChars response.data [] := by
  simp [Split, List.map_map, Function.comp_def]

theorem questions_spec (response : String) :
    ∀ q ∈ ((Split response).map TrimSpace).filter (fun q => decide (q ≠ "")),
      q ≠ "" ∧ (∀ c, q.data.head? = some c → isSpace c = false) ∧
      (∀ c, q.data.getLast? = some c → isSpace c = false) ∧ '\n' ∉ q.data := by
  intro q hq
  rw [List.mem_filter, List.mem_map] at hq
  obtain ⟨⟨p, hp, hpq⟩, hne⟩ := hq
  subst hpq
  refine ⟨by simpa using hne, ?_, ?_, ?_⟩
  · intro c hc
    exact trimChars_head p.data c hc
  · intro c hc
    exact trimChars_getLast p.data c hc
  · intro hmem
    have h1 : '\n' ∈ p.data := trimChars_subset p.data _ hmem
    have h2 : p.data ∈ splitChars response.data [] := by
      rw [← Split_data]
      exact List.mem_map_of_mem String.data hp
    exact splitChars_no_newline response.data [] (by simp) p.data h2 h1

/-- C4: when the provider answers `response`, `GenerateDiscussionQuestions`
returns the pieces of `response` between line feeds, each trimmed of the white
space around it, without the empty ones and in order.  The pieces are the
split of the response (joined by line feeds they give it back, and none holds
a line feed); trimming removes white space only, at both ends; so every
question is non-empty, starts and ends with a character that is not white
space and holds no line feed.  The response "Q1?\n\nQ2?\n" gives exactly
"Q1?" and "Q2?". -/
theorem GenerateDiscussionQuestions_spec (makeRequest : String → Except String String)
    (title description response : String)
    (h : makeRequest (questionsPrompt title description) = Except.ok response) :
    GenerateDiscussionQuestions makeRequest title description
        = Except.ok (((Split response).map TrimSpace).filter (fun q => decide (q ≠ ""))) ∧
      List.intercalate ['\n'] ((Split response).map String.data) = response.data ∧
      (∀ p ∈ Split response, '\n' ∉ p.data) ∧
      (∀ p : String, ∃ l r : List Char, p.data = l ++ (TrimSpace p).data ++ r ∧
        (∀ c ∈ l, isSpace c = true) ∧ (∀ c ∈ r, isSpace c = true)) ∧
      (∀ q ∈ ((Split response).map TrimSpace).filter (fun q => decide (q ≠ "")),
        q ≠ "" ∧ (∀ c, q.data.head? = some c → isSpace c = false) ∧
        (∀ c, q.data.getLast? = some c → isSpace c = false) ∧ '\n' ∉ q.data) ∧
      GenerateDiscussionQuestions (fun _ => Except.ok "Q1?\n\nQ2?\n") title description
        = Except.ok ["Q1?", "Q2?"] := by
  refine ⟨?_, ?_, ?_, ?_, questions_spec response, ?_⟩
  · simp [GenerateDiscussionQuestions, h, cleanLoop_eq]
  · rw [Split_data, splitChars_intercalate]
    simp
  · intro p hp
    have h2 : p.data ∈ splitChars response.data [] := by
      rw [← Split_data]
      exact List.mem_map_of_mem String.data hp
    exact splitChars_no_newline response.data [] (by simp) p.data h2
  · intro p
    refine ⟨p.data.takeWhile isSpace, (p.data.dropWhile isSpace).rtakeWhile isSpace,
      trimChars_decompose p.data, ?_, ?_⟩
    · intro c hc
      exact (List.mem_takeWhile_imp hc)
    · intro c hc
      exact List.mem_rtakeWhile_imp hc
  · have hq : cleanLoop (Split "Q1?\n\nQ2?\n") [] = ["Q1?", "Q2?"] := by decide
    simp only [GenerateDiscussionQuestions, hq]

theorem GenerateDiscussionQuestions_spec_witness :
    GenerateDiscussionQuestions (fun _ => Except.ok " a \n\tb\r\n\n") "T" "D"
        = Except.ok ["a", "b"] :=
  (GenerateDiscussionQuestions_spec (fun _ => Except.ok " a \n\tb\r\n\n") "T" "D"
    " a \n\tb\r\n\n" rfl).1.trans (by decide)

end deepseek

namespace main

theorem described_length (env : Env) (talks : List ted.Talk) (n : Nat) (descs : List String)
    (h : described env n talks descs = true) : descs.length = talks.length := by
  induction talks generalizing n descs with
  | nil =>
    cases descs with
    | nil => rfl
    | cons d ds => simp [described] at h
  | cons t rest ih =>
    cases descs with
    | nil => simp [described] at h
    | cons d ds =>
      simp only [described, Bool.and_eq_true, decide_eq_true_eq] at h
      simp [ih (n + 1) ds h.2]

theorem descLoop_of_described (env : Env) (talks : List ted.Talk) (n : Nat)
    (opts : List PollOption) (log : List Event) (descs : List String)
    (h : described env n talks descs = true) :
    descLoop env talks n opts log
      = (Except.ok (opts ++ List.zipWith pollOptionOf talks descs),
          log ++ talks.map requestEvent) := by
  induction talks generalizing n opts log descs with
  | nil =>
    cases descs with
    | nil => simp [descLoop]
    | cons d ds => simp [described] at h
  | cons t rest ih =>
    cases descs with
    | nil => simp [described] at h
    | cons d ds =>
      simp only [described, Bool.and_eq_true, decide_eq_true_eq] at h
      simp [descLoop, h.1, ih (n + 1) _ _ ds h.2]

theorem descLoop_spec (env : Env) (talks : List ted.Talk) (n : Nat) (opts : List PollOption)
    (log : List Event) :
    (∃ c j, (descLoop env talks n opts log).1 = Except.error (Err.generateDescription c) ∧
      (descLoop env talks n opts log).2 = log ++ (talks.take j).map requestEvent) ∨
    (∃ descs : List String, described env n talks descs = true) := by
  induction talks generalizing n opts log with
  | nil => exact Or.inr ⟨[], rfl⟩
  | cons t rest ih =>
    cases hr : deepseek.GenerateDescription (env.makeRequest n) t.Title with
    | error e =>
      refine Or.inl ⟨e, 1, ?_, ?_⟩ <;> simp [descLoop, hr]
    | ok desc =>
      rcases ih (n + 1) (opts ++ [pollOptionOf t desc]) (log ++ [requestEvent t])
        with ⟨c, j, hc, hl⟩ | ⟨ds, hd⟩
      · refine Or.inl ⟨c, j + 1, ?_, ?_⟩
        · simp [descLoop, hr, hc]
        · simp [descLoop, hr, hl]
      · exact Or.inr ⟨desc :: ds, by simp [described, hr, hd]⟩

theorem insertTalk_ok (env : Env) (i : Nat) (db db2 : List Row) (row : Row)
    (h : insertTalk env i db row = Except.ok db2) : db2 = db ++ [row] := by
  unfold insertTalk at h
  cases he : env.execFails i with
  | some e => rw [he] at h; simp at h
  | none =>
    rw [he] at h
    by_cases hany : db.any (fun r => r.id == row.id) = true
    · simp [hany] at h
    · simp only [hany] at h
      simp at h
      exact h.symm

theorem insertLoop_spec (env : Env) (opts : List PollOption) (pid : String)
    (talks : List ted.Talk) (i : Nat) (db : List Row) :
    ∃ k, (insertLoop env opts pid talks i db).2
        = db ++ candidateRows env opts pid (talks.take k) i ∧
      (∀ j t, j < k → talks.get? j = some t →
        insertTalk env (i + j) (db ++ candidateRows env opts pid (talks.take j) i)
            (talkRow env opts pid (i + j) t)
          = Except.ok (db ++ candidateRows env opts pid (talks.take (j + 1)) i)) ∧
      (((insertLoop env opts pid talks i db).1 = none ∧ k = talks.length) ∨
        (∃ c t, (insertLoop env opts pid talks i db).1 = some (Err.saveTalk c) ∧
          talks.get? k = some t ∧
          insertTalk env (i + k) (db ++ candidateRows env opts pid (talks.take k) i)
              (talkRow env opts pid (i + k) t) = Except.error c)) := by
  induction talks generalizing i db with
  | nil =>
    refine ⟨0, by simp [insertLoop, candidateRows], ?_, Or.inl ⟨by simp [insertLoop], rfl⟩⟩
    intro j t hj
    omega
  | cons t rest ih =>
    cases hr : insertTalk env i db (talkRow env opts pid i t) with
    | error e =>
      refine ⟨0, by simp [insertLoop, hr, candidateRows], ?_, Or.inr ⟨e, t, ?_, ?_, ?_⟩⟩
      · intro j t2 hj
        omega
      · simp [insertLoop, hr]
      · simp
      · simpa [candidateRows] using hr
    | ok db2 =>
      have hdb := insertTalk_ok env i db db2 _ hr
      obtain ⟨k, hk, hprev, hcase⟩ := ih (i + 1) db2
      have hstore : ∀ m, db2 ++ candidateRows env opts pid (rest.take m) (i + 1)
          = db ++ candidateRows env opts pid ((t :: rest).take (m + 1)) i := by
        intro m
        rw [hdb]
        simp [candidateRows]
      refine ⟨k + 1, ?_, ?_, ?_⟩
      · simp only [insertLoop, hr, hk]
        exact hstore k
      · intro j t2 hj hget
        cases j with
        | zero =>
          simp only [List.get?_cons_zero, Option.some.injEq] at hget
          subst hget
          simp only [Nat.add_zero, List.take_zero, candidateRows, List.append_nil]
          rw [hr, hdb]
        | succ j2 =>
          simp only [List.get?_cons_succ] at hget
          have h1 := hprev j2 t2 (by omega) hget
          rw [hstore j2, hstore (j2 + 1)] at h1
          have e : i + (j2 + 1) = i + 1 + j2 := by omega
          rw [e]
          exact h1
      · rcases hcase with ⟨h1, h2⟩ | ⟨c, t2, h1, hget, hfail⟩
        · exact Or.inl ⟨by simp [insertLoop, hr, h1], by simp [h2]⟩
        · refine Or.inr ⟨c, t2, by simp [insertLoop, hr, h1], by simpa using hget, ?_⟩
          rw [hstore k] at hfail
          have e : i + (k + 1) = i + 1 + k := by omega
          rw [e]
          exact hfail

theorem insertLoop_success (env : Env) (opts : List PollOption) (pid : String)
    (talks : List ted.Talk) (i : Nat) (db : List Row)
    (hexec : ∀ j, env.execFails j = none)
    (hnodup : (talks.map ted.Talk.ID).Nodup)
    (hfresh : ∀ t ∈ talks, ∀ r ∈ db, r.id ≠ t.ID) :
    insertLoop env opts pid talks i db
      = (none, db ++ candidateRows env opts pid talks i) := by
  induction talks generalizing i db with
  | nil => simp [insertLoop, candidateRows]
  | cons t rest ih =>
    have hany : db.any (fun r => r.id == (talkRow env opts pid i t).id) = false := by
      rw [List.any_eq_false]
      intro r hr
      have := hfresh t (by simp) r hr
      simpa [talkRow] using this
    have hins : insertTalk env i db (talkRow env opts pid i t)
        = Except.ok (db ++ [talkRow env opts pid i t]) := by
      simp [insertTalk, hexec i, hany]
    simp only [List.map_cons, List.nodup_cons] at hnodup
    have hrest := ih (i + 1) (db ++ [talkRow env opts pid i t]) hnodup.2 (by
      intro t2 ht2 r hr
      rcases List.mem_append.mp hr with hr | hr
      · exact hfresh t2 (by simp [ht2]) r hr
      · simp only [List.mem_singleton] at hr
        subst hr
        intro heq
        apply hnodup.1
        simp only [talkRow] at heq
        rw [heq]
        exact List.mem_map_of_mem _ ht2)
    simp only [insertLoop, hins, hrest, candidateRows]
    simp

theorem candidateRows_keys (env : Env) (opts : List PollOption) (pid : String)
    (talks : List ted.Talk) (i : Nat) :
    (candidateRows env opts pid talks i).map (fun r => (r.id, r.title))
      = talks.map (fun t => (t.ID, t.Title)) := by
  induction talks generalizing i with
  | nil => simp [candidateRows]
  | cons t rest ih => simp [candidateRows, talkRow, ih]

theorem min_toNat (n : Nat) : (min 6 (n : Int)).toNat = Nat.min 6 n := by
  unfold min
  split_ifs with h
  · have h6 : 6 ≤ n := by omega
    simp [Nat.min_def, h6]
  · have h6 : n ≤ 6 := by omega
    rcases Nat.lt_or_ge n 6 with hlt | hge
    · have : ¬ 6 ≤ n := by omega
      simp [Nat.min_def, this]
    · have : n = 6 := by omega
      subst this
      simp

theorem candidatesOf_eq (filtered : List ted.Talk) :
    candidatesOf filtered = filtered.take (Nat.min 6 filtered.length) := by
  unfold candidatesOf
  rw [min_toNat]

theorem handleMondayTask_unfold (env : Env) (w : World) (talks : List ted.Talk)
    (cands : List ted.Talk)
    (hs : env.SearchTalks env.topic = Except.ok talks)
    (h5 : 5 ≤ (ted.FilterTalks talks 600 1200).length)
    (hc : cands = candidatesOf (ted.FilterTalks talks 600 1200)) :
    handleMondayTask env w =
      match (descLoop env cands 0 [] (w.log ++ [Event.searchTalks env.topic])).1 with
      | Except.error err =>
        (some err, World.mk w.db
          (descLoop env cands 0 [] (w.log ++ [Event.searchTalks env.topic])).2)
      | Except.ok pollOptions =>
        match env.SendPoll (pollOf env.topic pollOptions) with
        | Except.error err =>
          (some (Err.sendPoll err), World.mk w.db
            ((descLoop env cands 0 [] (w.log ++ [Event.searchTalks env.topic])).2
              ++ [Event.sendPoll (pollOf env.topic pollOptions)]))
        | Except.ok pollID =>
          ((insertLoop env pollOptions pollID cands 0 w.db).1,
            World.mk (insertLoop env pollOptions pollID cands 0 w.db).2
              ((descLoop env cands 0 [] (w.log ++ [Event.searchTalks env.topic])).2
                ++ [Event.sendPoll (pollOf env.topic pollOptions)])) := by
  have h5b : ¬ (ted.FilterTalks talks 600 1200).length < 5 := by omega
  subst hc
  simp only [handleMondayTask, hs, h5b, if_false]
  rcases hd : descLoop env (candidatesOf (ted.FilterTalks talks 600 1200)) 0 []
      (w.log ++ [Event.searchTalks env.topic]) with ⟨r, lg⟩
  cases r with
  | error e => rfl
  | ok opts => rfl

/-- The run of `handleMondayTask` after a successful search that left at
least 5 talks, when the provider describes every candidate. -/
theorem handleMondayTask_described (env : Env) (w : World) (talks : List ted.Talk)
    (cands : List ted.Talk) (descs : List String)
    (hs : env.SearchTalks env.topic = Except.ok talks)
    (h5 : 5 ≤ (ted.FilterTalks talks 600 1200).length)
    (hc : cands = candidatesOf (ted.FilterTalks talks 600 1200))
    (hd : described env 0 cands descs = true) :
    handleMondayTask env w =
      match env.SendPoll (pollOf env.topic (List.zipWith pollOptionOf cands descs)) with
      | Except.error err =>
        (some (Err.sendPoll err), World.mk w.db
          (w.log ++ [Event.searchTalks env.topic] ++ cands.map requestEvent
            ++ [Event.sendPoll (pollOf env.topic (List.zipWith pollOptionOf cands descs))]))
      | Except.ok pollID =>
        ((insertLoop env (List.zipWith pollOptionOf cands descs) pollID cands 0 w.db).1,
          World.mk (insertLoop env (List.zipWith pollOptionOf cands descs) pollID cands 0 w.db).2
            (w.log ++ [Event.searchTalks env.topic] ++ cands.map requestEvent
              ++ [Event.sendPoll
                (pollOf env.topic (List.zipWith pollOptionOf cands descs))])) := by
  rw [handleMondayTask_unfold env w talks cands hs h5 hc,
    descLoop_of_described env cands 0 [] _ descs hd]
  simp only [List.nil_append]

theorem candidateRows_length (env : Env) (opts : List PollOption) (pid : String)
    (talks : List ted.Talk) (i : Nat) :
    (candidateRows env opts pid talks i).length = talks.length := by
  induction talks generalizing i with
  | nil => simp [candidateRows]
  | cons t rest ih => simp [candidateRows, ih]

/-- C5: when the search succeeds and the duration filter with bounds 600 and
1200 leaves fewer than 5 talks, `handleMondayTask` returns the error "not
enough talks found", the store is unchanged and the only call made to a
collaborator is the search: no description is requested, no poll is sent and
no row is inserted. -/
theorem handleMondayTask_not_enough (env : Env) (w : World) (talks : List ted.Talk)
    (hs : env.SearchTalks env.topic = Except.ok talks)
    (hlen : (ted.FilterTalks talks 600 1200).length < 5) :
    handleMondayTask env w
      = (some (Err.notEnoughTalks env.topic),
          { db := w.db, log := w.log ++ [Event.searchTalks env.topic] }) := by
  simp [handleMondayTask, hs, hlen]

theorem handleMondayTask_not_enough_witness :
    handleMondayTask fewEnv overlapWorld
      = (some (Err.notEnoughTalks "Climate"),
          { db := [oldRow "t5" true], log := [Event.searchTalks "Climate"] }) :=
  handleMondayTask_not_enough fewEnv overlapWorld
    [talk "t1" 500, talk "t2" 650, talk "t3" 1200, talk "t4" 1300, talk "t5" 900]
    rfl (by decide)

/-- C6, as stated, fails: the store already holds talk `t5`, the inserts of
`t2` and `t3` are committed, the insert of `t5` breaks the primary key, the
run returns an error and the two rows stay in the store. -/
theorem handleMondayTask_partial_commit :
    (handleMondayTask demoEnv overlapWorld).1
        = some (Err.saveTalk "UNIQUE constraint failed: talks.id") ∧
      (handleMondayTask demoEnv overlapWorld).2.db ≠ overlapWorld.db ∧
      ((handleMondayTask demoEnv overlapWorld).2.db.map Row.id) = ["t5", "t2", "t3"] := by
  decide

/-- C6, amended: when `handleMondayTask` returns an error that does not come
from an insert (search, too few talks, description generation, poll creation),
the store holds the same rows as before the run.  When it returns the error of
an insert, the poll was sent, the inserts of the candidates `0 .. k-1` each
succeeded on the store that held the rows before them, the insert of candidate
`k` is the statement that failed on that store, and the store after the run is
the store before it followed by the rows of those `k` candidates: they stay
committed. -/
theorem handleMondayTask_error_store (env : Env) (w : World) (e : Err)
    (h : (handleMondayTask env w).1 = some e) :
    ((∀ c, e ≠ Err.saveTalk c) → (handleMondayTask env w).2.db = w.db) ∧
    (∀ c, e = Err.saveTalk c → ∃ talks descs pollID k t,
      env.SearchTalks env.topic = Except.ok talks ∧
      described env 0 (candidatesOf (ted.FilterTalks talks 600 1200)) descs = true ∧
      env.SendPoll (pollOf env.topic (List.zipWith pollOptionOf
        (candidatesOf (ted.FilterTalks talks 600 1200)) descs)) = Except.ok pollID ∧
      (candidatesOf (ted.FilterTalks talks 600 1200)).get? k = some t ∧
      (∀ j t2, j < k → (candidatesOf (ted.FilterTalks talks 600 1200)).get? j = some t2 →
        insertTalk env j
            (w.db ++ candidateRows env (List.zipWith pollOptionOf
              (candidatesOf (ted.FilterTalks talks 600 1200)) descs) pollID
              ((candidatesOf (ted.FilterTalks talks 600 1200)).take j) 0)
            (talkRow env (List.zipWith pollOptionOf
              (candidatesOf (ted.FilterTalks talks 600 1200)) descs) pollID j t2)
          = Except.ok (w.db ++ candidateRows env (List.zipWith pollOptionOf
              (candidatesOf (ted.FilterTalks talks 600 1200)) descs) pollID
              ((candidatesOf (ted.FilterTalks talks 600 1200)).take (j + 1)) 0)) ∧
      insertTalk env k
          (w.db ++ candidateRows env (List.zipWith pollOptionOf
            (candidatesOf (ted.FilterTalks talks 600 1200)) descs) pollID
            ((candidatesOf (ted.FilterTalks talks 600 1200)).take k) 0)
          (talkRow env (List.zipWith pollOptionOf
            (candidatesOf (ted.FilterTalks talks 600 1200)) descs) pollID k t)
        = Except.error c ∧
      (handleMondayTask env w).2.db
        = w.db ++ candidateRows env (List.zipWith pollOptionOf
            (candidatesOf (ted.FilterTalks talks 600 1200)) descs) pollID
            ((candidatesOf (ted.FilterTalks talks 600 1200)).take k) 0 ∧
      (handleMondayTask env w).2.db.length = w.db.length + k) := by
  cases hs : env.SearchTalks env.topic with
  | error err =>
    have hr : handleMondayTask env w = (some (Err.searchTalks err),
        { db := w.db, log := w.log ++ [Event.searchTalks env.topic] }) := by
      simp [handleMondayTask, hs]
    rw [hr] at h ⊢
    simp only [Option.some.injEq] at h
    subst h
    exact ⟨fun _ => rfl, fun c hc => by cases hc⟩
  | ok talks =>
    by_cases h5 : (ted.FilterTalks talks 600 1200).length < 5
    · have hr : handleMondayTask env w = (some (Err.notEnoughTalks env.topic),
          { db := w.db, log := w.log ++ [Event.searchTalks env.topic] }) := by
        simp [handleMondayTask, hs, h5]
      rw [hr] at h ⊢
      simp only [Option.some.injEq] at h
      subst h
      exact ⟨fun _ => rfl, fun c hc => by cases hc⟩
    · have h5b : 5 ≤ (ted.FilterTalks talks 600 1200).length := by omega
      rcases descLoop_spec env (candidatesOf (ted.FilterTalks talks 600 1200)) 0 []
          (w.log ++ [Event.searchTalks env.topic]) with ⟨c, j, h1, h2⟩ | ⟨ds, hd⟩
      · rw [handleMondayTask_unfold env w talks _ hs h5b rfl, h1] at h ⊢
        simp only [Option.some.injEq] at h
        subst h
        exact ⟨fun _ => rfl, fun c hc => by cases hc⟩
      · rw [handleMondayTask_described env w talks _ ds hs h5b rfl hd] at h ⊢
        cases hp : env.SendPoll (pollOf env.topic (List.zipWith pollOptionOf
            (candidatesOf (ted.FilterTalks talks 600 1200)) ds)) with
        | error err =>
          rw [hp] at h
          simp only [Option.some.injEq] at h
          subst h
          exact ⟨fun _ => rfl, fun c hc => by cases hc⟩
        | ok pid =>
          rw [hp] at h
          simp only at h ⊢
          obtain ⟨k, hk, hprev, hcase⟩ := insertLoop_spec env (List.zipWith pollOptionOf
            (candidatesOf (ted.FilterTalks talks 600 1200)) ds) pid
            (candidatesOf (ted.FilterTalks talks 600 1200)) 0 w.db
          rcases hcase with ⟨h1, _⟩ | ⟨c, t, h1, hget, hfail⟩
          · rw [h1] at h
            cases h
          · rw [h1] at h
            simp only [Option.some.injEq] at h
            subst h
            refine ⟨fun hne => absurd rfl (hne c), fun c2 hc2 => ?_⟩
            simp only [Err.saveTalk.injEq] at hc2
            subst hc2
            simp only [Nat.zero_add] at hprev hfail
            have hklt : k < (candidatesOf (ted.FilterTalks talks 600 1200)).length := by
              rcases Nat.lt_or_ge k (candidatesOf (ted.FilterTalks talks 600 1200)).length
                with hlt | hge
              · exact hlt
              · rw [List.get?_eq_none.mpr hge] at hget
                cases hget
            refine ⟨talks, ds, pid, k, t, rfl, hd, hp, hget, hprev, hfail, hk, ?_⟩
            rw [hk, List.length_append, candidateRows_length, List.length_take]
            have : Nat.min k (candidatesOf (ted.FilterTalks talks 600 1200)).length = k :=
              Nat.min_eq_left (Nat.le_of_lt hklt)
            simpa using this

theorem handleMondayTask_error_store_witness :
    (handleMondayTask fewEnv overlapWorld).2.db = overlapWorld.db ∧
    ∃ talks descs pollID k t,
      demoEnv.SearchTalks demoEnv.topic = Except.ok talks ∧
      described demoEnv 0 (candidatesOf (ted.FilterTalks talks 600 1200)) descs = true ∧
      demoEnv.SendPoll (pollOf demoEnv.topic (List.zipWith pollOptionOf
        (candidatesOf (ted.FilterTalks talks 600 1200)) descs)) = Except.ok pollID ∧
      (candidatesOf (ted.FilterTalks talks 600 1200)).get? k = some t ∧
      (∀ j t2, j < k → (candidatesOf (ted.FilterTalks talks 600 1200)).get? j = some t2 →
        insertTalk demoEnv j
            (overlapWorld.db ++ candidateRows demoEnv (List.zipWith pollOptionOf
              (candidatesOf (ted.FilterTalks talks 600 1200)) descs) pollID
              ((candidatesOf (ted.FilterTalks talks 600 1200)).take j) 0)
            (talkRow demoEnv (List.zipWith pollOptionOf
              (candidatesOf (ted.FilterTalks talks 600 1200)) descs) pollID j t2)
          = Except.ok (overlapWorld.db ++ candidateRows demoEnv (List.zipWith pollOptionOf
              (candidatesOf (ted.FilterTalks talks 600 1200)) descs) pollID
              ((candidatesOf (ted.FilterTalks talks 600 1200)).take (j + 1)) 0)) ∧
      insertTalk demoEnv k
          (overlapWorld.db ++ candidateRows demoEnv (List.zipWith pollOptionOf
            (candidatesOf (ted.FilterTalks talks 600 1200)) descs) pollID
            ((candidatesOf (ted.FilterTalks talks 600 1200)).take k) 0)
          (talkRow demoEnv (List.zipWith pollOptionOf
            (candidatesOf (ted.FilterTalks talks 600 1200)) descs) pollID k t)
        = Except.error "UNIQUE constraint failed: talks.id" ∧
      (handleMondayTask demoEnv overlapWorld).2.db
        = overlapWorld.db ++ candidateRows demoEnv (List.zipWith pollOptionOf
            (candidatesOf (ted.FilterTalks talks 600 1200)) descs) pollID
            ((candidatesOf (ted.FilterTalks talks 600 1200)).take k) 0 ∧
      (handleMondayTask demoEnv overlapWorld).2.db.length = overlapWorld.db.length + k :=
  ⟨(handleMondayTask_error_store fewEnv overlapWorld (Err.notEnoughTalks "Climate")
      (by decide)).1 (fun c hc => by cases hc),
    (handleMondayTask_error_store demoEnv overlapWorld
      (Err.saveTalk "UNIQUE constraint failed: talks.id") (by decide)).2 _ rfl⟩

theorem candidateRows_description (env : Env) (opts : List PollOption) (pid : String)
    (talks : List ted.Talk) (i : Nat) (hlen : opts.length = i + talks.length) :
    (candidateRows env opts pid talks i).map Row.description
      = (opts.drop i).map PollOption.Text := by
  induction talks generalizing i with
  | nil =>
    have : opts.length ≤ i := by simp at hlen; omega
    simp [candidateRows, List.drop_eq_nil_of_le this]
  | cons t rest ih =>
    have hi : i < opts.length := by simp at hlen; omega
    have hrest : opts.length = (i + 1) + rest.length := by simp at hlen; omega
    rw [List.drop_eq_getElem_cons hi]
    simp only [candidateRows, List.map_cons, ih (i + 1) hrest]
    simp [talkRow, List.getD_eq_getElem _ _ hi, List.getElem?_eq_getElem hi]

theorem candidateRows_pollID (env : Env) (opts : List PollOption) (pid : String)
    (talks : List ted.Talk) (i : Nat) :
    ∀ r ∈ candidateRows env opts pid talks i, r.poll_message_id = pid ∧ r.selected = false := by
  induction talks generalizing i with
  | nil => simp [candidateRows]
  | cons t rest ih =>
    intro r hr
    simp only [candidateRows, List.mem_cons] at hr
    rcases hr with hr | hr
    · subst hr
      exact ⟨rfl, rfl⟩
    · exact ih (i + 1) r hr

theorem length_zipWith_pollOptionOf (cands : List ted.Talk) (descs : List String)
    (h : descs.length = cands.length) :
    (List.zipWith pollOptionOf cands descs).length = cands.length := by
  simp [List.length_zipWith, h]

theorem sendPoll_not_mem_requests (poll : Poll) (l : List ted.Talk) :
    Event.sendPoll poll ∉ l.map requestEvent := by
  intro hin
  rw [List.mem_map] at hin
  obtain ⟨t, _, ht⟩ := hin
  cases ht

theorem candidatesOf_sublist (talks : List ted.Talk) :
    List.Sublist (candidatesOf (ted.FilterTalks talks 600 1200)) talks := by
  rw [candidatesOf_eq]
  refine List.Sublist.trans (List.take_sublist _ _) ?_
  simp only [ted.FilterTalks, ted.filterLoop_eq, List.nil_append]
  exact List.filter_sublist _

theorem candidatesOf_length (filtered : List ted.Talk) (h5 : 5 ≤ filtered.length) :
    (candidatesOf filtered).length = 5 ∨ (candidatesOf filtered).length = 6 := by
  rw [candidatesOf_eq, List.length_take]
  rcases Nat.lt_or_ge filtered.length 6 with hlt | hge
  · left
    have : Nat.min 6 filtered.length = filtered.length := Nat.min_eq_right (by omega)
    rw [this]
    simp
    omega
  · right
    have : Nat.min 6 filtered.length = 6 := Nat.min_eq_left hge
    rw [this]
    simpa using hge

/-- C9, as stated, fails: seven talks pass the filter, the six candidates
`t2 .. t8` are put to a poll of six options, the driver fails the fifth
insert, and the store holds only the rows of `t2`, `t3`, `t5`, `t6`: the
candidates persisted are not the candidates put to the poll. -/
theorem handleMondayTask_poll_without_rows :
    5 ≤ (ted.FilterTalks demoTalks 600 1200).length ∧
      (candidatesOf (ted.FilterTalks demoTalks 600 1200)).map ted.Talk.ID
        = ["t2", "t3", "t5", "t6", "t7", "t8"] ∧
      (sentPolls (handleMondayTask diskFullEnv emptyWorld).2.log).map
        (fun p => p.Options.length) = [6] ∧
      (handleMondayTask diskFullEnv emptyWorld).2.db.map Row.id = ["t2", "t3", "t5", "t6"] ∧
      (handleMondayTask diskFullEnv emptyWorld).1
        = some (Err.saveTalk "database or disk is full") := by
  decide

/-- C9, amended: when the search succeeds and at least 5 talks pass the
filter, the candidates are the first `min(6, k)` filtered talks, in the order
of the search result, so 5 or 6 of them.  When the provider describes every
candidate, the run sends the poll, with one option per candidate in candidate
order (title, line feed, description), so with 5 or 6 options.  When the poll
is created, the rows the run leaves in the store are those of the first
candidates, in order, up to the first insert that fails, and the run returns
no error exactly when that is all of them; in particular when no insert fails
(no driver failure, candidate ids distinct and new to the store) the rows
persisted are exactly those of the candidates, each with the talk's id and
title, the option's text and the poll's identifier. -/
theorem handleMondayTask_candidates (env : Env) (w : World) (talks : List ted.Talk)
    (descs : List String)
    (hs : env.SearchTalks env.topic = Except.ok talks)
    (h5 : 5 ≤ (ted.FilterTalks talks 600 1200).length)
    (hd : described env 0 (candidatesOf (ted.FilterTalks talks 600 1200)) descs = true) :
    candidatesOf (ted.FilterTalks talks 600 1200)
        = (ted.FilterTalks talks 600 1200).take
            (Nat.min 6 (ted.FilterTalks talks 600 1200).length) ∧
      List.Sublist (candidatesOf (ted.FilterTalks talks 600 1200)) talks ∧
      ((candidatesOf (ted.FilterTalks talks 600 1200)).length = 5 ∨
        (candidatesOf (ted.FilterTalks talks 600 1200)).length = 6) ∧
      (handleMondayTask env w).2.log
        = w.log ++ [Event.searchTalks env.topic]
          ++ (candidatesOf (ted.FilterTalks talks 600 1200)).map requestEvent
          ++ [Event.sendPoll (pollOf env.topic (List.zipWith pollOptionOf
                (candidatesOf (ted.FilterTalks talks 600 1200)) descs))] ∧
      (List.zipWith pollOptionOf (candidatesOf (ted.FilterTalks talks 600 1200)) descs).length
        = (candidatesOf (ted.FilterTalks talks 600 1200)).length ∧
      (∀ pollID, env.SendPoll (pollOf env.topic (List.zipWith pollOptionOf
            (candidatesOf (ted.FilterTalks talks 600 1200)) descs)) = Except.ok pollID →
        (∃ k, k ≤ (candidatesOf (ted.FilterTalks talks 600 1200)).length ∧
          (handleMondayTask env w).2.db
            = w.db ++ candidateRows env (List.zipWith pollOptionOf
                (candidatesOf (ted.FilterTalks talks 600 1200)) descs) pollID
                ((candidatesOf (ted.FilterTalks talks 600 1200)).take k) 0 ∧
          ((handleMondayTask env w).1 = none ↔
            k = (candidatesOf (ted.FilterTalks talks 600 1200)).length)) ∧
        ((∀ j, env.execFails j = none) →
          ((candidatesOf (ted.FilterTalks talks 600 1200)).map ted.Talk.ID).Nodup →
          (∀ t ∈ candidatesOf (ted.FilterTalks talks 600 1200), ∀ r ∈ w.db, r.id ≠ t.ID) →
          (handleMondayTask env w).1 = none ∧
          (handleMondayTask env w).2.db
            = w.db ++ candidateRows env (List.zipWith pollOptionOf
                (candidatesOf (ted.FilterTalks talks 600 1200)) descs) pollID
                (candidatesOf (ted.FilterTalks talks 600 1200)) 0)) ∧
      (∀ pollID,
        (candidateRows env (List.zipWith pollOptionOf
            (candidatesOf (ted.FilterTalks talks 600 1200)) descs) pollID
            (candidatesOf (ted.FilterTalks talks 600 1200)) 0).map (fun r => (r.id, r.title))
          = (candidatesOf (ted.FilterTalks talks 600 1200)).map (fun t => (t.ID, t.Title)) ∧
        (candidateRows env (List.zipWith pollOptionOf
            (candidatesOf (ted.FilterTalks talks 600 1200)) descs) pollID
            (candidatesOf (ted.FilterTalks talks 600 1200)) 0).map Row.description
          = (List.zipWith pollOptionOf
              (candidatesOf (ted.FilterTalks talks 600 1200)) descs).map PollOption.Text ∧
        (∀ r ∈ candidateRows env (List.zipWith pollOptionOf
            (candidatesOf (ted.FilterTalks talks 600 1200)) descs) pollID
            (candidatesOf (ted.FilterTalks talks 600 1200)) 0,
          r.poll_message_id = pollID ∧ r.selected = false)) := by
  have hl := described_length env _ 0 descs hd
  have hrun := handleMondayTask_described env w talks _ descs hs h5 rfl hd
  refine ⟨candidatesOf_eq _, candidatesOf_sublist _, candidatesOf_length _ h5, ?_,
    length_zipWith_pollOptionOf _ _ hl, ?_, ?_⟩
  · rw [hrun]
    cases hp : env.SendPoll (pollOf env.topic (List.zipWith pollOptionOf
        (candidatesOf (ted.FilterTalks talks 600 1200)) descs)) with
    | error err => rfl
    | ok pid => rfl
  · intro pid hp
    rw [hrun, hp]
    simp only
    constructor
    · obtain ⟨k, hk, _, hcase⟩ := insertLoop_spec env (List.zipWith pollOptionOf
        (candidatesOf (ted.FilterTalks talks 600 1200)) descs) pid
        (candidatesOf (ted.FilterTalks talks 600 1200)) 0 w.db
      rcases hcase with ⟨h1, h2⟩ | ⟨c, t, h1, hget, _⟩
      · exact ⟨k, by omega, hk, by simp [h1, h2]⟩
      · have hklt : k < (candidatesOf (ted.FilterTalks talks 600 1200)).length := by
          rcases Nat.lt_or_ge k (candidatesOf (ted.FilterTalks talks 600 1200)).length
            with hlt | hge
          · exact hlt
          · rw [List.get?_eq_none.mpr hge] at hget
            cases hget
        refine ⟨k, by omega, hk, ?_⟩
        rw [h1]
        constructor
        · intro hcontra
          cases hcontra
        · intro hcontra
          omega
    · intro hexec hnodup hfresh
      rw [insertLoop_success env _ pid _ 0 w.db hexec hnodup hfresh]
      exact ⟨rfl, rfl⟩
  · intro pid
    refine ⟨candidateRows_keys _ _ _ _ _, ?_, candidateRows_pollID _ _ _ _ _⟩
    rw [candidateRows_description _ _ _ _ 0
      (by rw [length_zipWith_pollOptionOf _ _ hl]; simp)]
    simp

theorem handleMondayTask_candidates_witness :
    (ted.FilterTalks fiveTalks 600 1200).length = 5 ∧
      (sentPolls (handleMondayTask fiveEnv emptyWorld).2.log).map
        (fun p => p.Options.length) = [5] ∧
      ((handleMondayTask fiveEnv emptyWorld).1 = none ∧
        (handleMondayTask fiveEnv emptyWorld).2.db
          = emptyWorld.db ++ candidateRows fiveEnv (List.zipWith pollOptionOf
              (candidatesOf (ted.FilterTalks fiveTalks 600 1200)) (demoDescs 5)) "poll-2"
              (candidatesOf (ted.FilterTalks fiveTalks 600 1200)) 0) :=
  ⟨by decide, by decide,
    ((handleMondayTask_candidates fiveEnv emptyWorld fiveTalks (demoDescs 5) rfl (by decide)
      (by decide)).2.2.2.2.2.1 "poll-2" rfl).2 (fun _ => rfl) (by decide) (by decide)⟩

/-- C10, as stated, fails: no row of the current cycle is selected, a row of
an older cycle is, and `handleSundayTask` succeeds: it requests the questions
for the old talk, writes them to its row and sends the message. -/
theorem handleSundayTask_uses_older_cycle :
    (∀ r ∈ currentCycle staleWorld.db, r.selected = false) ∧
      (handleSundayTask demoEnv staleWorld).1 = none ∧
      Event.makeRequest (deepseek.questionsPrompt "Talk a2" "Talk a2\nOld.")
        ∈ (handleSundayTask demoEnv staleWorld).2.log ∧
      (handleSundayTask demoEnv staleWorld).2.db.map Row.discussion_questions
        = [none, some "Line one.\nLine two.", none, none] ∧
      (handleSundayTask demoEnv staleWorld).2.log.length = 2 := by
  decide

theorem latestRow_some (l : List Row) (h : l ≠ []) :
    ∃ row, latestRow l = some row ∧ row ∈ l ∧ ∀ r ∈ l, r.suggested_at ≤ row.suggested_at := by
  induction l with
  | nil => exact absurd rfl h
  | cons r rest ih =>
    by_cases hrest : rest = []
    · subst hrest
      exact ⟨r, by simp [latestRow], by simp, by simp⟩
    · obtain ⟨r2, h2, hmem, hmax⟩ := ih hrest
      by_cases hgt : r2.suggested_at > r.suggested_at
      · refine ⟨r2, by simp [latestRow, h2, hgt], by simp [hmem], ?_⟩
        intro x hx
        rcases List.mem_cons.mp hx with hx | hx
        · subst hx
          omega
        · exact hmax x hx
      · refine ⟨r, by simp [latestRow, h2, hgt], by simp, ?_⟩
        intro x hx
        rcases List.mem_cons.mp hx with hx | hx
        · subst hx
          exact Nat.le_refl _
        · have := hmax x hx
          omega

/-- C10, amended: when no row of the store is marked selected, in the current
cycle or in an older one, `handleSundayTask` fails with "failed to get selected
talk" before any call to the generation collaborator: the store and the record
of calls are unchanged.  When some row is selected, in whatever cycle, and the
query itself does not fail, the run goes on with a selected row of greatest
`suggested_at` and requests the questions for it. -/
theorem handleSundayTask_selection (env : Env) (w : World) :
    ((∀ r ∈ w.db, r.selected = false) →
      ∃ cause, handleSundayTask env w = (some (Err.getSelectedTalk cause), w)) ∧
    ((∃ r ∈ w.db, r.selected = true) → env.queryFails = none →
      ∃ row ∈ w.db, row.selected = true ∧
        (∀ r ∈ w.db, r.selected = true → r.suggested_at ≤ row.suggested_at) ∧
        Event.makeRequest (deepseek.questionsPrompt row.title row.description)
          ∈ (handleSundayTask env w).2.log) := by
  constructor
  · intro h
    have hf : w.db.filter (fun r => r.selected) = [] := by
      rw [List.filter_eq_nil_iff]
      intro r hr
      simp [h r hr]
    cases hq : env.queryFails with
    | some e => exact ⟨e, by simp [handleSundayTask, querySelectedTalk, hq]⟩
    | none =>
      exact ⟨"sql: no rows in result set",
        by simp [handleSundayTask, querySelectedTalk, hq, hf, latestRow]⟩
  · rintro ⟨r, hr, hsel⟩ hq
    have hne : w.db.filter (fun r => r.selected) ≠ [] := by
      intro hnil
      rw [List.filter_eq_nil_iff] at hnil
      exact hnil r hr (by simp [hsel])
    obtain ⟨row, hrow, hmem, hmax⟩ := latestRow_some _ hne
    rw [List.mem_filter] at hmem
    refine ⟨row, hmem.1, by simpa using hmem.2, ?_, ?_⟩
    · intro x hx hxs
      exact hmax x (List.mem_filter.mpr ⟨hx, by simp [hxs]⟩)
    · simp only [handleSundayTask, querySelectedTalk, hq, hrow]
      cases hg : deepseek.GenerateDiscussionQuestions (env.makeRequest 0) row.title
          row.description with
      | error e => simp
      | ok qs =>
        simp only
        cases he : env.execFails 0 with
        | some e => simp
        | none =>
          simp only
          cases hsnd : env.SendText ("Here are some questions to guide our discussion of \""
              ++ row.title ++ "\":\n\n" ++ String.intercalate "\nâ€¢ " qs
              ++ "\n\nSee you at 18:00!") with
          | error e => simp
          | ok u => simp

theorem handleSundayTask_selection_witness :
    (∃ cause, handleSundayTask demoEnv unselectedWorld
        = (some (Err.getSelectedTalk cause), unselectedWorld)) ∧
    ∃ row ∈ staleWorld.db, row.selected = true ∧
      (∀ r ∈ staleWorld.db, r.selected = true → r.suggested_at ≤ row.suggested_at) ∧
      Event.makeRequest (deepseek.questionsPrompt row.title row.description)
        ∈ (handleSundayTask demoEnv staleWorld).2.log :=
  ⟨(handleSundayTask_selection demoEnv unselectedWorld).1 (by decide),
    (handleSundayTask_selection demoEnv staleWorld).2 ⟨oldRow "a2" true, by decide, rfl⟩ rfl⟩

/-! ### The winner loop -/

theorem winnerLoop_cells (options : List PollOption) (cells : List PollOption)
    (w : Option Nat) (m : Int) (hw : ∀ a, w = some a → a < cells.length) :
    (winnerLoop options cells w m).1 = cells ++ options ∧
    ((winnerLoop options cells w m).2.bind (cells ++ options).get?)
      = bestOf (w.bind cells.get?) m options := by
  induction options generalizing cells w m with
  | nil => exact ⟨by simp [winnerLoop], by simp [winnerLoop, bestOf]⟩
  | cons o rest ih =>
    by_cases hgt : o.VoterCount > m
    · have hv : ∀ a, some cells.length = some a → a < (cells ++ [o]).length := by
        intro a ha
        simp only [Option.some.injEq] at ha
        subst ha
        simp
      obtain ⟨h1, h3⟩ := ih (cells ++ [o]) (some cells.length) o.VoterCount hv
      simp only [winnerLoop, hgt, if_true, bestOf]
      rw [List.append_assoc] at h1 h3
      refine ⟨h1, ?_⟩
      rw [List.singleton_append] at h3
      rw [h3]
      simp
    · have hv : ∀ a, w = some a → a < (cells ++ [o]).length := by
        intro a ha
        have := hw a ha
        simp
        omega
      obtain ⟨h1, h3⟩ := ih (cells ++ [o]) w m hv
      simp only [winnerLoop, hgt, if_false, bestOf]
      rw [List.append_assoc] at h1 h3
      refine ⟨h1, ?_⟩
      rw [List.singleton_append] at h3
      rw [h3]
      congr 1
      cases w with
      | none => rfl
      | some a =>
        have := hw a rfl
        simp [List.getElem?_append_left this]

theorem bestOf_first_max (cur : PollOption) (rest : List PollOption) :
    ∃ b pre post, bestOf (some cur) cur.VoterCount rest = some b ∧
      cur :: rest = pre ++ b :: post ∧
      (∀ o ∈ pre, o.VoterCount < b.VoterCount) ∧
      (∀ o ∈ cur :: rest, o.VoterCount ≤ b.VoterCount) := by
  induction rest generalizing cur with
  | nil => exact ⟨cur, [], [], by simp [bestOf], by simp, by simp, by simp⟩
  | cons o rest ih =>
    by_cases hgt : o.VoterCount > cur.VoterCount
    · obtain ⟨b, pre, post, hb, hdec, hpre, hall⟩ := ih o
      refine ⟨b, cur :: pre, post, by simp [bestOf, hgt, hb], by simp [hdec], ?_, ?_⟩
      · intro x hx
        rcases List.mem_cons.mp hx with hx | hx
        · subst hx
          have := hall o (by simp)
          omega
        · exact hpre x hx
      · intro x hx
        rcases List.mem_cons.mp hx with hx | hx
        · subst hx
          have := hall o (by simp)
          omega
        · exact hall x hx
    · obtain ⟨b, pre, post, hb, hdec, hpre, hall⟩ := ih cur
      cases pre with
      | nil =>
        simp only [List.nil_append, List.cons.injEq] at hdec
        obtain ⟨hcb, hpost⟩ := hdec
        subst hcb
        refine ⟨cur, [], o :: rest, by simp [bestOf, hgt, hb], by simp, by simp, ?_⟩
        intro x hx
        rcases List.mem_cons.mp hx with hx | hx
        · subst hx
          exact le_refl _
        · rcases List.mem_cons.mp hx with hx | hx
          · subst hx
            omega
          · exact hall x (by simp [hx])
      | cons c pre2 =>
        simp only [List.cons_append, List.cons.injEq] at hdec
        obtain ⟨hcc, hrest⟩ := hdec
        subst hcc
        refine ⟨b, cur :: o :: pre2, post, by simp [bestOf, hgt, hb], by simp [hrest], ?_, ?_⟩
        · intro x hx
          have hcur := hpre cur (by simp)
          rcases List.mem_cons.mp hx with hx | hx
          · subst hx
            exact hcur
          · rcases List.mem_cons.mp hx with hx | hx
            · subst hx
              omega
            · exact hpre x (by simp [hx])
        · intro x hx
          have hcur := hpre cur (by simp)
          rcases List.mem_cons.mp hx with hx | hx
          · subst hx
            omega
          · rcases List.mem_cons.mp hx with hx | hx
            · subst hx
              omega
            · exact hall x (by simp [hx])

/-- C2: on a non-empty list of options with counts of at least 0, the winner
loop ends with `winningOption` pointing to the first option whose count is the
maximum: every option before it has a strictly smaller count and no option has
a greater one; the `LIKE` argument and the announcement carry the text of that
option.  On votes 3, 5, 5, 2 for A, B, C, D the winner is B; on the empty list
the handler returns "no winning option found". -/
theorem winningOption_first_max (options : List PollOption) (hne : options ≠ [])
    (h0 : ∀ o ∈ options, 0 ≤ o.VoterCount) :
    (∃ b pre post, winningOption options = Except.ok b ∧
      options = pre ++ b :: post ∧
      (∀ x ∈ pre, x.VoterCount < b.VoterCount) ∧
      (∀ x ∈ options, x.VoterCount ≤ b.VoterCount) ∧
      likeArgument b = "%" ++ b.Text ++ "%" ∧
      (∀ talkTitle, announcement talkTitle b
        = "We're going to discuss \"" ++ talkTitle
          ++ "\" on Sunday at 18:00 Berlin time! ðŸŽ‰\n\n" ++ b.Text)) ∧
    winningOption exampleOptions = Except.ok { Text := "B", VoterCount := 5 } ∧
    likeArgument { Text := "B", VoterCount := 5 } = "%B%" ∧
    winningOption [] = Except.error Err.noWinningOption := by
  refine ⟨?_, by decide, by decide, by decide⟩
  cases options with
  | nil => exact absurd rfl hne
  | cons o rest =>
    have hgt : o.VoterCount > -1 := by
      have := h0 o (by simp)
      omega
    obtain ⟨h1, h3⟩ := winnerLoop_cells (o :: rest) [] none (-1) (by simp)
    obtain ⟨b, pre, post, hb, hdec, hpre, hall⟩ := bestOf_first_max o rest
    refine ⟨b, pre, post, ?_, hdec, hpre, hall, rfl, fun talkTitle => rfl⟩
    have hbest : bestOf ((none : Option Nat).bind ([] : List PollOption).get?) (-1) (o :: rest)
        = some b := by
      simp only [bestOf, hgt, if_true]
      exact hb
    rw [hbest] at h3
    unfold winningOption
    rcases hw : winnerLoop (o :: rest) [] none (-1) with ⟨cells, addr⟩
    rw [hw] at h1 h3
    simp only at h1 h3
    subst h1
    cases addr with
    | none => simp at h3
    | some a =>
      simp only [Option.bind] at h3
      simp only [List.nil_append] at h3 ⊢
      rw [h3]

theorem winningOption_first_max_witness :
    ∃ b pre post, winningOption exampleOptions5 = Except.ok b ∧
      exampleOptions5 = pre ++ b :: post ∧
      (∀ x ∈ pre, x.VoterCount < b.VoterCount) ∧
      (∀ x ∈ exampleOptions5, x.VoterCount ≤ b.VoterCount) ∧
      likeArgument b = "%" ++ b.Text ++ "%" ∧
      (∀ talkTitle, announcement talkTitle b
        = "We're going to discuss \"" ++ talkTitle
          ++ "\" on Sunday at 18:00 Berlin time! ðŸŽ‰\n\n" ++ b.Text) :=
  (winningOption_first_max exampleOptions5 (by decide) (by decide)).1

end main
